import Mathlib

set_option maxRecDepth 8000

/- Shallow embedding of sensor-exporter (main.go): the hddtemp wire-format
   parser, the hddtemp connection lifecycle, and the pwrstat (UPS) field
   loop, together with proofs about the specified behaviour. Strings are
   modelled as lists of characters and float64 values as exact rationals. -/

/-- Record parsed from one hddtemp wire record, mirroring the Go struct
`HddTemperature` (main.go lines 153-157); the float64 temperature is
modelled as an exact rational. -/
structure HddTemperature where
  Device : List Char
  Id : List Char
  TemperatureCelsius : ℚ
deriving DecidableEq

/-- Helper for the models of Go `strings.Split`: push a character onto the
front of the first field of an already-split tail. -/
def consHead (c : Char) : List (List Char) → List (List Char)
  | [] => [[c]]
  | l :: ls => (c :: l) :: ls

/-- Models Go `strings.Split(s, "|")`: cut at every pipe, keeping empty
fields, with `Split("", "|") = [""]`. -/
def split1 : List Char → List (List Char)
  | [] => [[]]
  | c :: rest => if c = '|' then [] :: split1 rest else consHead c (split1 rest)

/-- Models Go `strings.Split(s, "||")`: leftmost, non-overlapping scan for
the two-character separator. -/
def split2 : List Char → List (List Char)
  | [] => [[]]
  | [c] => [[c]]
  | a :: b :: rest =>
    if a = '|' ∧ b = '|' then [] :: split2 rest
    else consHead a (split2 (b :: rest))

/-- Decimal digit test, as in Go's number scanner. -/
def isDigitChar (c : Char) : Bool := '0' ≤ c && c ≤ '9'

/-- Numeric value of a decimal digit character. -/
def digitVal (c : Char) : ℕ := c.toNat - 48

/-- Value of a most-significant-first digit string. -/
def digitsToNat (ds : List Char) : ℕ :=
  ds.foldl (fun a c => 10 * a + digitVal c) 0

/-- Models the unsigned decimal mantissa accepted by Go `strconv.ParseFloat`
(digits, optional `.`, optional fraction digits, at least one digit in
total), with exact rational semantics in place of float64 rounding.
Exponents, hex mantissas, `Inf` and `NaN` lie outside the fragment the
program's inputs exercise. -/
def parseUnsigned (s : List Char) : Option ℚ :=
  match s.dropWhile isDigitChar with
  | [] =>
    if s.takeWhile isDigitChar = [] then none
    else some ((digitsToNat (s.takeWhile isDigitChar) : ℚ))
  | '.' :: frac =>
    if s.takeWhile isDigitChar = [] ∧ frac = [] then none
    else if frac.all isDigitChar then
      some ((digitsToNat (s.takeWhile isDigitChar) : ℚ) +
        (digitsToNat frac : ℚ) / 10 ^ frac.length)
    else none
  | _ => none

/-- Models Go `strconv.ParseFloat(s, 64)` on the decimal fragment: an
optional sign followed by an unsigned mantissa. -/
def parseFloat (s : List Char) : Option ℚ :=
  match s with
  | [] => none
  | c :: rest =>
    if c = '-' then (parseUnsigned rest).map (fun v => -v)
    else if c = '+' then parseUnsigned rest
    else parseUnsigned s

/-- Models `parseHddTemp` (main.go lines 211-232): split one record on
`"|"`, require exactly 4 fields, treat unit `"*"` as the sentinel `-1`,
accept only unit `"C"` otherwise, and parse the temperature field. Error
messages are collapsed to `Unit`. -/
def parseHddTemp (s : List Char) : Except Unit HddTemperature :=
  match split1 s with
  | [dev, id, temp, unit] =>
    if unit = ['*'] then .ok ⟨dev, id, -1⟩
    else if unit ≠ ['C'] then .error ()
    else
      match parseFloat temp with
      | some v => .ok ⟨dev, id, v⟩
      | none => .error ()
  | _ => .error ()

/-- Outcome of `parseHddTemps`, distinguishing a Go runtime panic (from the
unchecked slice expression) from an ordinary returned error. -/
inductive HddParseOutcome
  | panicked
  | failed
  | ok (temps : List HddTemperature)
deriving DecidableEq

/-- Coerces the loop result of `parseHddTemps` into an outcome. -/
def exceptToOutcome : Except Unit (List HddTemperature) → HddParseOutcome
  | .error _ => .failed
  | .ok ts => .ok ts

/-- Models the Go slice expression `s[lo:hi]`: defined when
`lo ≤ hi ≤ len(s)` and a runtime panic (`none`) otherwise. -/
def goSlice (s : List Char) (lo hi : ℕ) : Option (List Char) :=
  if lo ≤ hi ∧ hi ≤ s.length then some ((s.take hi).drop lo) else none

/-- Models the loop of `parseHddTemps` (main.go lines 200-207): parse each
item in order, aborting with the first failure and no partial list. -/
def parseHddTempsList : List (List Char) → Except Unit (List HddTemperature)
  | [] => .ok []
  | item :: rest =>
    match parseHddTemp item with
    | .error e => .error e
    | .ok t =>
      match parseHddTempsList rest with
      | .error e => .error e
      | .ok ts => .ok (t :: ts)

/-- Models `parseHddTemps` (main.go lines 195-209): reject inputs that are
empty or do not begin with a pipe, then evaluate the unchecked slice
`s[1:len(s)-1]` (which panics when `len(s) = 1`), split the middle on
`"||"` and parse every record. -/
def parseHddTemps (s : List Char) : HddParseOutcome :=
  if s.length < 1 ∨ s.head? ≠ some '|' then .failed
  else
    match goSlice s 1 (s.length - 1) with
    | none => .panicked
    | some mid => exceptToOutcome (parseHddTempsList (split2 mid))

/-- Which of the two connection-lifecycle events of `readTempsFromConn`
actually happened during one call: was `net.Dial` performed successfully,
and was `conn.Close` reached. -/
structure ConnTrace where
  opened : Bool
  closed : Bool
deriving DecidableEq

/-- Models `HddCollector.readTempsFromConn` (main.go lines 175-186) as a
function of whether the dial inside `Init` succeeds and whether the drain
read (`io.Copy`) succeeds. The Go code closes the connection only after a
successful copy; the early return on a copy error skips `h.conn.Close()`. -/
def readTempsFromConn (dialOk readOk : Bool) (data : List Char) :
    ConnTrace × Except Unit (List Char) :=
  if dialOk = false then (⟨false, false⟩, .error ())
  else if readOk = false then (⟨true, false⟩, .error ())
  else (⟨true, true⟩, .ok data)

/-- The Prometheus metric descriptors declared in main.go lines 21-93, as
an enumeration. -/
inductive DescName
  | fanspeed
  | voltage
  | power
  | temperature
  | hddTemp
  | load
  | state
  | battery
  | rtime
  | inVoltage
  | outVoltage
  | test
deriving DecidableEq

def LoadDesc : DescName := .load

def StateDesc : DescName := .state

def BatteryDesc : DescName := .battery

def RtimeDesc : DescName := .rtime

def InVoltageDesc : DescName := .inVoltage

def OutVoltageDesc : DescName := .outVoltage

def TestDesc : DescName := .test

def HddTempDesc : DescName := .hddTemp

/-- One metric emission (`prometheus.MustNewConstMetric`): descriptor,
gauge value, and ordered label values over label type `L`. -/
structure Sample (L : Type) where
  desc : DescName
  value : ℚ
  labels : List L
deriving DecidableEq

/-- Outcome of a collector's `Collect` call: either the emitted samples, or
a runtime panic that terminates the process. -/
inductive CollectOutcome (L : Type)
  | panicked
  | ok (samples : List (Sample L))
deriving DecidableEq

/-- Models `HddCollector.Collect` (main.go lines 240-259) as a function of
the result of `readTempsFromConn`: a read failure is logged and degraded to
zero samples, a parse failure likewise, and a parse panic propagates. -/
def hddCollect (readResult : Except Unit (List Char)) : CollectOutcome (List Char) :=
  match readResult with
  | .error _ => .ok []
  | .ok s =>
    match parseHddTemps s with
    | .panicked => .panicked
    | .failed => .ok []
    | .ok ts => .ok (ts.map fun t => ⟨HddTempDesc, t.TemperatureCelsius, [t.Device, t.Id]⟩)

def loadKey : String := "Load"

def stateKey : String := "State"

def batteryKey : String := "Battery Capacity"

def rtimeKey : String := "Remaining Runtime"

def utilityKey : String := "Utility Voltage"

def outputKey : String := "Output Voltage"

def testKey : String := "Test Result"

def modelNameKey : String := "Model Name"

def normalVal : String := "Normal"

def passedTok : List Char := ['P', 'a', 's', 's', 'e', 'd']

/-- Models the whitespace class of Go `strings.Fields` on the ASCII range
(`unicode.IsSpace` for the characters the tool's output contains). -/
def isGoSpace (c : Char) : Bool :=
  c = ' ' || c = '\t' || c = '\n' || c = '\x0b' || c = '\x0c' || c = '\r'

/-- Accumulator loop behind `goFields`. -/
def goFieldsAux : List Char → List Char → List (List Char)
  | acc, [] => if acc = [] then [] else [acc.reverse]
  | acc, c :: rest =>
    if isGoSpace c then (if acc = [] then [] else [acc.reverse]) ++ goFieldsAux [] rest
    else goFieldsAux (c :: acc) rest

/-- Models Go `strings.Fields(s)`: the maximal runs of non-whitespace
characters, so the result is empty exactly when `s` is empty or all
whitespace. -/
def goFields (s : List Char) : List (List Char) := goFieldsAux [] s

/-- Models Go map indexing `status.Status[k]`: the stored value, or the
zero value `""` when the key is absent. -/
def statusGet (st : List (String × String)) (k : String) : String :=
  (st.lookup k).getD ""

/-- Models one numeric branch of `PwrstatCollector.Collect` (the repeated
`strings.Fields` / `value_arr[0]` / `strconv.ParseFloat` pattern, e.g.
main.go lines 285-290): `none` is the index-out-of-range panic of
`value_arr[0]` on an empty fields slice; an unparseable first token emits
nothing for this field. -/
def numericField (d : DescName) (model : String) (v : String) :
    Option (List (Sample String)) :=
  match goFields v.toList with
  | [] => none
  | tok :: _ =>
    match parseFloat tok with
    | some x => some [⟨d, x, [model]⟩]
    | none => some []

/-- Models the body of the `for k, v := range status.Status` loop of
`PwrstatCollector.Collect` (main.go lines 283-332) for a single key/value
pair; `none` is a runtime panic. -/
def pwrstatStep (model : String) (k v : String) : Option (List (Sample String)) :=
  if k = loadKey then numericField LoadDesc model v
  else if k = stateKey then
    some [⟨StateDesc, if v = normalVal then 1 else 0, [model]⟩]
  else if k = batteryKey then numericField BatteryDesc model v
  else if k = rtimeKey then numericField RtimeDesc model v
  else if k = utilityKey then numericField InVoltageDesc model v
  else if k = outputKey then numericField OutVoltageDesc model v
  else if k = testKey then
    match goFields v.toList with
    | [] => none
    | tok :: _ => some [⟨TestDesc, if tok = passedTok then 1 else 0, [model]⟩]
  else some []

/-- Models the whole field loop of `PwrstatCollector.Collect`: the status
pairs are visited in sequence, samples accumulate, and a panic aborts. The
unspecified Go map iteration order is made explicit as the list order. -/
def pwrstatLoop (model : String) : List (String × String) → Option (List (Sample String))
  | [] => some []
  | (k, v) :: rest =>
    match pwrstatStep model k v with
    | none => none
    | some ss =>
      match pwrstatLoop model rest with
      | none => none
      | some ss2 => some (ss ++ ss2)

/-- Models `PwrstatCollector.Collect` (main.go lines 278-333): a failed
`gopwrstat.NewFromSystem` is passed to `panic(err)`; otherwise the field
loop runs with the model name looked up from the same status mapping. -/
def pwrstatCollect (queryResult : Except Unit (List (String × String))) :
    CollectOutcome String :=
  match queryResult with
  | .error _ => .panicked
  | .ok st =>
    match pwrstatLoop (statusGet st modelNameKey) st with
    | none => .panicked
    | some ss => .ok ss

/-- Models `PwrstatCollector.Describe` (main.go lines 269-276): the
descriptors the UPS adapter declares. `InVoltageDesc` is not among them. -/
def pwrstatDescribe : List DescName :=
  [LoadDesc, StateDesc, BatteryDesc, RtimeDesc, OutVoltageDesc, TestDesc]

/-- Little-endian decimal digit expansion with explicit fuel, used by the
synthetic response encoder. -/
def natDigitsRev : ℕ → ℕ → List Char
  | 0, _ => []
  | _ + 1, 0 => []
  | fuel + 1, n + 1 => Char.ofNat (48 + (n + 1) % 10) :: natDigitsRev fuel ((n + 1) / 10)

/-- Most-significant-first decimal rendering of a natural number. -/
def natToDecimal (n : ℕ) : List Char :=
  if n = 0 then ['0'] else (natDigitsRev n n).reverse

/-- Pad a digit string on the left with zeros up to width `k`. -/
def padZeros (k : ℕ) (ds : List Char) : List Char :=
  List.replicate (k - ds.length) '0' ++ ds

/-- Synthetic decimal rendering of a rational whose denominator divides a
power of ten: sign, integer digits, a point, and exactly `q.den` fraction
digits. Used only by the specification-side encoder. -/
def renderQ (q : ℚ) : List Char :=
  (if q.num < 0 then ['-'] else []) ++
    natToDecimal (q.num.natAbs * (10 ^ q.den / q.den) / 10 ^ q.den) ++
    '.' :: padZeros q.den (natToDecimal (q.num.natAbs * (10 ^ q.den / q.den) % 10 ^ q.den))

/-- Modelled from the spec: a temperature that has an exact finite decimal
representation, phrased so that `renderQ` can use `q.den` itself as the
number of fraction digits. -/
def DecimalRepresentable (q : ℚ) : Prop := q.den ∣ 10 ^ q.den

instance (q : ℚ) : Decidable (DecimalRepresentable q) := by
  unfold DecimalRepresentable; infer_instance

/-- Modelled from the spec (section 8, round-trip property): encode one
record per the grammar `record := device '|' id '|' temperature '|' unit`,
using the sentinel unit `"*"` for temperature `-1` and unit `"C"` with a
decimal rendering otherwise. -/
def encodeRecord (r : HddTemperature) : List Char :=
  if r.TemperatureCelsius = -1 then
    r.Device ++ '|' :: (r.Id ++ '|' :: '*' :: '|' :: ['*'])
  else
    r.Device ++ '|' :: (r.Id ++ '|' :: (renderQ r.TemperatureCelsius ++ '|' :: ['C']))

/-- Join encoded records with the two-character separator `"||"`. -/
def joinPipes : List (List Char) → List Char
  | [] => []
  | [p] => p
  | p :: ps => p ++ '|' :: '|' :: joinPipes ps

/-- Modelled from the spec: encode a record sequence per the grammar
`response := '|' record ('||' record)* '|'`. -/
def encodeResponse (rs : List HddTemperature) : List Char :=
  '|' :: (joinPipes (rs.map encodeRecord) ++ ['|'])

/-- A record the wire grammar can carry unambiguously: nonempty pipe-free
device and id fields, and a temperature that is either the sentinel or has
a finite decimal representation. -/
def ValidRecord (r : HddTemperature) : Prop :=
  r.Device ≠ [] ∧ '|' ∉ r.Device ∧ r.Id ≠ [] ∧ '|' ∉ r.Id ∧
    (r.TemperatureCelsius = -1 ∨ DecimalRepresentable r.TemperatureCelsius)

instance decidableValidRecord (r : HddTemperature) : Decidable (ValidRecord r) := by
  unfold ValidRecord; infer_instance

/-- Adjacent-double-pipe test used as the side condition of the `split2`
characterization lemmas. -/
def hasDoublePipe : List Char → Bool
  | [] => false
  | [_] => false
  | a :: b :: rest => (a = '|' && b = '|') || hasDoublePipe (b :: rest)

def emptyStr : String := ""

def vAbc : String := "abc"

def v120 : String := "120"

def mWitness : String := "CP1500"

def rsWitness : List HddTemperature :=
  [⟨['s', 'd', 'a'], ['1'], 33⟩, ⟨['s', 'd', 'b'], ['2'], -1⟩]

theorem split1_cons (c : Char) (rest : List Char) :
    split1 (c :: rest) =
      if c = '|' then [] :: split1 rest else consHead c (split1 rest) := rfl

theorem split2_cons_cons (a b : Char) (rest : List Char) :
    split2 (a :: b :: rest) =
      if a = '|' ∧ b = '|' then [] :: split2 rest
      else consHead a (split2 (b :: rest)) := rfl

theorem hdp_cons_cons (a b : Char) (rest : List Char) :
    hasDoublePipe (a :: b :: rest) =
      ((a = '|' && b = '|') || hasDoublePipe (b :: rest)) := rfl

theorem split1_append (a : List Char) (rest : List Char) (h : '|' ∉ a) :
    split1 (a ++ '|' :: rest) = a :: split1 rest := by
  induction a with
  | nil =>
    show split1 ('|' :: rest) = [] :: split1 rest
    rw [split1_cons, if_pos rfl]
  | cons c a' ih =>
    have hc : ¬ c = '|' := by
      rintro rfl
      exact h (List.mem_cons_self _ _)
    have ha' : '|' ∉ a' := fun hm => h (List.mem_cons_of_mem _ hm)
    show split1 (c :: (a' ++ '|' :: rest)) = (c :: a') :: split1 rest
    rw [split1_cons, if_neg hc, ih ha']
    rfl

theorem split1_no_pipe (a : List Char) (h : '|' ∉ a) : split1 a = [a] := by
  induction a with
  | nil => rfl
  | cons c a' ih =>
    have hc : ¬ c = '|' := by
      rintro rfl
      exact h (List.mem_cons_self _ _)
    have ha' : '|' ∉ a' := fun hm => h (List.mem_cons_of_mem _ hm)
    rw [split1_cons, if_neg hc, ih ha']
    rfl

theorem split2_pair (rest : List Char) :
    split2 ('|' :: '|' :: rest) = [] :: split2 rest := by
  rw [split2_cons_cons, if_pos ⟨rfl, rfl⟩]

theorem split2_append (part : List Char) (rest : List Char)
    (h1 : hasDoublePipe part = false) (h2 : part.getLast? ≠ some '|') :
    split2 (part ++ '|' :: '|' :: rest) = part :: split2 rest := by
  induction part with
  | nil =>
    show split2 ('|' :: '|' :: rest) = [] :: split2 rest
    exact split2_pair rest
  | cons c p ih =>
    cases p with
    | nil =>
      have hc : ¬ c = '|' := by
        rintro rfl
        exact h2 rfl
      show split2 (c :: '|' :: '|' :: rest) = [c] :: split2 rest
      rw [split2_cons_cons, if_neg (fun hq => hc hq.1), split2_pair]
      rfl
    | cons c2 p' =>
      rw [hdp_cons_cons] at h1
      have h1b : hasDoublePipe (c2 :: p') = false := by
        cases hcp : hasDoublePipe (c2 :: p') with
        | false => rfl
        | true => rw [hcp] at h1; simp at h1
      have hcc : ¬ (c = '|' ∧ c2 = '|') := by
        intro hq
        rw [hq.1, hq.2] at h1
        simp at h1
      have h2' : (c2 :: p').getLast? ≠ some '|' := by
        rw [List.getLast?_cons_cons] at h2
        exact h2
      have ih' : split2 (c2 :: (p' ++ '|' :: '|' :: rest)) = (c2 :: p') :: split2 rest :=
        ih h1b h2'
      show split2 (c :: c2 :: (p' ++ '|' :: '|' :: rest)) = (c :: c2 :: p') :: split2 rest
      rw [split2_cons_cons, if_neg hcc, ih']
      rfl

theorem split2_no_sep (part : List Char) (h1 : hasDoublePipe part = false) :
    split2 part = [part] := by
  induction part with
  | nil => rfl
  | cons c p ih =>
    cases p with
    | nil => rfl
    | cons c2 p' =>
      rw [hdp_cons_cons] at h1
      have h1b : hasDoublePipe (c2 :: p') = false := by
        cases hcp : hasDoublePipe (c2 :: p') with
        | false => rfl
        | true => rw [hcp] at h1; simp at h1
      have hcc : ¬ (c = '|' ∧ c2 = '|') := by
        intro hq
        rw [hq.1, hq.2] at h1
        simp at h1
      rw [split2_cons_cons, if_neg hcc, ih h1b]
      rfl

theorem split2_joinPipes (parts : List (List Char)) (hne : parts ≠ [])
    (h : ∀ p ∈ parts, hasDoublePipe p = false ∧ p.getLast? ≠ some '|') :
    split2 (joinPipes parts) = parts := by
  induction parts with
  | nil => exact absurd rfl hne
  | cons p ps ih =>
    cases ps with
    | nil =>
      have hp := h p (List.mem_cons_self _ _)
      show split2 p = [p]
      exact split2_no_sep p hp.1
    | cons q ps' =>
      have hp := h p (List.mem_cons_self _ _)
      show split2 (p ++ '|' :: '|' :: joinPipes (q :: ps')) = p :: (q :: ps')
      rw [split2_append p _ hp.1 hp.2]
      rw [ih (List.cons_ne_nil _ _) (fun r hr => h r (List.mem_cons_of_mem _ hr))]

theorem hdp_append (a b : List Char) (ha : '|' ∉ a)
    (hb : hasDoublePipe ('|' :: b) = false) :
    hasDoublePipe (a ++ '|' :: b) = false := by
  induction a with
  | nil => exact hb
  | cons c a' ih =>
    have hc : ¬ c = '|' := by
      rintro rfl
      exact ha (List.mem_cons_self _ _)
    have ha' : '|' ∉ a' := fun hm => ha (List.mem_cons_of_mem _ hm)
    cases a' with
    | nil =>
      show hasDoublePipe (c :: '|' :: b) = false
      rw [hdp_cons_cons, hb]
      simp [hc]
    | cons c2 a'' =>
      have ih' : hasDoublePipe (c2 :: (a'' ++ '|' :: b)) = false := ih ha'
      show hasDoublePipe (c :: c2 :: (a'' ++ '|' :: b)) = false
      rw [hdp_cons_cons, ih']
      simp [hc]

theorem hdp_pipe_glue (a b : List Char) (hane : a ≠ []) (ha : '|' ∉ a)
    (hb : hasDoublePipe ('|' :: b) = false) :
    hasDoublePipe ('|' :: (a ++ '|' :: b)) = false := by
  cases a with
  | nil => exact absurd rfl hane
  | cons c a' =>
    have hc : ¬ c = '|' := by
      rintro rfl
      exact ha (List.mem_cons_self _ _)
    have hrest : hasDoublePipe ((c :: a') ++ '|' :: b) = false := hdp_append _ _ ha hb
    show hasDoublePipe ('|' :: c :: (a' ++ '|' :: b)) = false
    rw [hdp_cons_cons]
    have : hasDoublePipe (c :: (a' ++ '|' :: b)) = false := hrest
    rw [this]
    simp [hc]

theorem digitChar_spec (d : ℕ) (h : d < 10) :
    isDigitChar (Char.ofNat (48 + d)) = true ∧ digitVal (Char.ofNat (48 + d)) = d ∧
      Char.ofNat (48 + d) ∉ ['|', '.', '-', '+'] := by
  interval_cases d <;> refine ⟨by decide, by decide, by decide⟩

theorem digitsToNat_append_digit (l : List Char) (c : Char) :
    digitsToNat (l ++ [c]) = 10 * digitsToNat l + digitVal c := by
  unfold digitsToNat
  rw [List.foldl_append]
  rfl

theorem natDigitsRev_digits (fuel : ℕ) : ∀ (n : ℕ), ∀ c ∈ natDigitsRev fuel n,
    isDigitChar c = true ∧ c ∉ ['|', '.', '-', '+'] := by
  induction fuel with
  | zero =>
    intro n c hc
    simp [natDigitsRev] at hc
  | succ fuel ih =>
    intro n c hc
    cases n with
    | zero => simp [natDigitsRev] at hc
    | succ m =>
      simp only [natDigitsRev, List.mem_cons] at hc
      rcases hc with rfl | hc
      · have hd := digitChar_spec ((m + 1) % 10) (Nat.mod_lt _ (by norm_num))
        exact ⟨hd.1, hd.2.2⟩
      · exact ih _ c hc

theorem natDigitsRev_val (fuel : ℕ) : ∀ (n : ℕ), n ≤ fuel →
    digitsToNat ((natDigitsRev fuel n).reverse) = n := by
  induction fuel with
  | zero =>
    intro n hn
    have : n = 0 := Nat.le_zero.mp hn
    subst this
    rfl
  | succ fuel ih =>
    intro n hn
    cases n with
    | zero => rfl
    | succ m =>
      have hle : (m + 1) / 10 ≤ fuel := by
        have := Nat.div_lt_self (Nat.succ_pos m) (show 1 < 10 by norm_num)
        omega
      have hd := digitChar_spec ((m + 1) % 10) (Nat.mod_lt _ (by norm_num))
      simp only [natDigitsRev, List.reverse_cons]
      rw [digitsToNat_append_digit, ih _ hle, hd.2.1]
      exact Nat.div_add_mod (m + 1) 10

theorem natDigitsRev_len (fuel : ℕ) : ∀ (n k : ℕ), n ≤ fuel → n < 10 ^ k →
    (natDigitsRev fuel n).length ≤ k := by
  induction fuel with
  | zero =>
    intro n k _ _
    simp [natDigitsRev]
  | succ fuel ih =>
    intro n k hn hk
    cases n with
    | zero => simp [natDigitsRev]
    | succ m =>
      have hkpos : k ≠ 0 := by
        rintro rfl
        simp at hk
      obtain ⟨k', rfl⟩ : ∃ k', k = k' + 1 := ⟨k - 1, by omega⟩
      have hdivlt : (m + 1) / 10 < 10 ^ k' := by
        rw [Nat.div_lt_iff_lt_mul (by norm_num)]
        calc m + 1 < 10 ^ (k' + 1) := hk
          _ = 10 ^ k' * 10 := by ring
      have hle : (m + 1) / 10 ≤ fuel := by
        have := Nat.div_lt_self (Nat.succ_pos m) (show 1 < 10 by norm_num)
        omega
      have := ih _ _ hle hdivlt
      simp only [natDigitsRev, List.length_cons]
      omega

theorem natToDecimal_val (n : ℕ) : digitsToNat (natToDecimal n) = n := by
  by_cases h0 : n = 0
  · subst h0
    decide
  · unfold natToDecimal
    rw [if_neg h0]
    exact natDigitsRev_val n n le_rfl

theorem natToDecimal_ne_nil (n : ℕ) : natToDecimal n ≠ [] := by
  cases n with
  | zero => decide
  | succ m => simp [natToDecimal, natDigitsRev]

theorem natToDecimal_digits (n : ℕ) : ∀ c ∈ natToDecimal n,
    isDigitChar c = true ∧ c ∉ ['|', '.', '-', '+'] := by
  cases n with
  | zero =>
    intro c hc
    simp [natToDecimal] at hc
    subst hc
    refine ⟨by decide, by decide⟩
  | succ m =>
    intro c hc
    simp only [natToDecimal, Nat.succ_ne_zero, if_false, List.mem_reverse] at hc
    exact natDigitsRev_digits _ _ c hc

theorem natToDecimal_len (n k : ℕ) (hk : 1 ≤ k) (h : n < 10 ^ k) :
    (natToDecimal n).length ≤ k := by
  cases n with
  | zero => simpa [natToDecimal] using hk
  | succ m =>
    simp only [natToDecimal, Nat.succ_ne_zero, if_false, List.length_reverse]
    exact natDigitsRev_len _ _ _ le_rfl h

theorem digitsToNat_padZeros (k : ℕ) (ds : List Char) :
    digitsToNat (padZeros k ds) = digitsToNat ds := by
  unfold padZeros digitsToNat
  rw [List.foldl_append]
  have hz : ∀ z : ℕ, List.foldl (fun a c => 10 * a + digitVal c) 0 (List.replicate z '0') = 0 := by
    intro z
    induction z with
    | zero => rfl
    | succ z ih =>
      rw [List.replicate_succ, List.foldl_cons]
      have : 10 * 0 + digitVal '0' = 0 := by decide
      rw [this]
      exact ih
  rw [hz]

theorem padZeros_length (k : ℕ) (ds : List Char) (h : ds.length ≤ k) :
    (padZeros k ds).length = k := by
  simp only [padZeros, List.length_append, List.length_replicate]
  omega

theorem padZeros_digits (k : ℕ) (ds : List Char) (h : ∀ c ∈ ds, isDigitChar c = true) :
    ∀ c ∈ padZeros k ds, isDigitChar c = true := by
  intro c hc
  rcases List.mem_append.mp hc with h1 | h2
  · have : c = '0' := List.eq_of_mem_replicate h1
    subst this
    decide
  · exact h c h2

theorem takeWhile_append_stop (p : Char → Bool) (a : List Char) (c : Char) (b : List Char)
    (ha : ∀ x ∈ a, p x = true) (hc : p c = false) :
    (a ++ c :: b).takeWhile p = a ∧ (a ++ c :: b).dropWhile p = c :: b := by
  induction a with
  | nil => simp [List.takeWhile_cons, List.dropWhile_cons, hc]
  | cons x a' ih =>
    have hx := ha x (List.mem_cons_self _ _)
    have ha' : ∀ y ∈ a', p y = true := fun y hy => ha y (List.mem_cons_of_mem _ hy)
    obtain ⟨iht, ihd⟩ := ih ha'
    constructor
    · show ((x :: (a' ++ c :: b)).takeWhile p) = x :: a'
      rw [List.takeWhile_cons, if_pos hx, iht]
    · show ((x :: (a' ++ c :: b)).dropWhile p) = c :: b
      rw [List.dropWhile_cons, if_pos hx, ihd]

theorem parseUnsigned_digits_dot (ip fp : List Char)
    (hip : ∀ c ∈ ip, isDigitChar c = true) (hfp : ∀ c ∈ fp, isDigitChar c = true)
    (hipne : ip ≠ []) :
    parseUnsigned (ip ++ '.' :: fp) =
      some ((digitsToNat ip : ℚ) + (digitsToNat fp : ℚ) / 10 ^ fp.length) := by
  have hdot : isDigitChar '.' = false := by decide
  obtain ⟨htake, hdrop⟩ := takeWhile_append_stop isDigitChar ip '.' fp hip hdot
  have hall : fp.all isDigitChar = true := List.all_eq_true.mpr hfp
  unfold parseUnsigned
  rw [hdrop, htake]
  simp [hipne, hall]

theorem parseFloat_digits_head (a b : List Char) (hne : a ≠ [])
    (ha : ∀ c ∈ a, isDigitChar c = true ∧ c ∉ ['|', '.', '-', '+']) :
    parseFloat (a ++ b) = parseUnsigned (a ++ b) := by
  cases a with
  | nil => exact absurd rfl hne
  | cons c a' =>
    have hc := (ha c (List.mem_cons_self _ _)).2
    simp only [List.mem_cons, List.not_mem_nil, or_false, not_or] at hc
    show parseFloat (c :: (a' ++ b)) = parseUnsigned (c :: (a' ++ b))
    simp [parseFloat, hc.2.2.1, hc.2.2.2]

theorem parseFloat_neg_cons (rest : List Char) :
    parseFloat ('-' :: rest) = (parseUnsigned rest).map (fun v => -v) := by
  simp [parseFloat]

theorem parseUnsigned_decimal (an k : ℕ) (hk : 1 ≤ k) :
    parseUnsigned (natToDecimal (an / 10 ^ k) ++ '.' :: padZeros k (natToDecimal (an % 10 ^ k))) =
      some ((an : ℚ) / 10 ^ k) := by
  have hpowpos : 0 < 10 ^ k := pow_pos (by norm_num) k
  have hmod : an % 10 ^ k < 10 ^ k := Nat.mod_lt _ hpowpos
  have hfrlen : (natToDecimal (an % 10 ^ k)).length ≤ k := natToDecimal_len _ _ hk hmod
  have hfplen : (padZeros k (natToDecimal (an % 10 ^ k))).length = k :=
    padZeros_length _ _ hfrlen
  have hipd : ∀ c ∈ natToDecimal (an / 10 ^ k), isDigitChar c = true :=
    fun c hc => (natToDecimal_digits _ c hc).1
  have hfpd : ∀ c ∈ padZeros k (natToDecimal (an % 10 ^ k)), isDigitChar c = true :=
    padZeros_digits _ _ (fun c hc => (natToDecimal_digits _ c hc).1)
  have hbody := parseUnsigned_digits_dot _ _ hipd hfpd (natToDecimal_ne_nil _)
  rw [natToDecimal_val, digitsToNat_padZeros, natToDecimal_val, hfplen] at hbody
  rw [hbody]
  congr 1
  have hsplit : 10 ^ k * (an / 10 ^ k) + an % 10 ^ k = an := Nat.div_add_mod an (10 ^ k)
  have e1 : (10 : ℚ) ^ k * ((an / 10 ^ k : ℕ) : ℚ) + ((an % 10 ^ k : ℕ) : ℚ) = (an : ℚ) := by
    have := congrArg (fun n : ℕ => (n : ℚ)) hsplit
    push_cast at this
    linarith
  have hpow0 : ((10 : ℚ) ^ k) ≠ 0 := by positivity
  field_simp
  linear_combination e1

theorem parseFloat_renderQ (q : ℚ) (h : DecimalRepresentable q) :
    parseFloat (renderQ q) = some q := by
  have hdenpos : 0 < q.den := q.den_pos
  have hden0 : ((q.den : ℚ)) ≠ 0 := by positivity
  have hpow0 : ((10 : ℚ) ^ q.den) ≠ 0 := by positivity
  have hcast : ((10 ^ q.den / q.den : ℕ) : ℚ) = ((10 : ℚ) ^ q.den) / (q.den : ℚ) := by
    rw [Nat.cast_div h hden0]
    push_cast
    rfl
  have e3 : ((q.num.natAbs * (10 ^ q.den / q.den) : ℕ) : ℚ) =
      (q.num.natAbs : ℚ) * ((10 : ℚ) ^ q.den / (q.den : ℚ)) := by
    push_cast [hcast]
    ring
  have e4 : ((q.num.natAbs * (10 ^ q.den / q.den) : ℕ) : ℚ) / 10 ^ q.den =
      (q.num.natAbs : ℚ) / (q.den : ℚ) := by
    rw [e3]
    field_simp
    ring
  have hbody := parseUnsigned_decimal (q.num.natAbs * (10 ^ q.den / q.den)) q.den hdenpos
  by_cases hneg : q.num < 0
  · have hrq : renderQ q = '-' ::
        (natToDecimal (q.num.natAbs * (10 ^ q.den / q.den) / 10 ^ q.den) ++
          '.' :: padZeros q.den
            (natToDecimal (q.num.natAbs * (10 ^ q.den / q.den) % 10 ^ q.den))) := by
      unfold renderQ
      rw [if_pos hneg]
      rfl
    rw [hrq, parseFloat_neg_cons, hbody]
    show some (-(((q.num.natAbs * (10 ^ q.den / q.den) : ℕ) : ℚ) / 10 ^ q.den)) = some q
    congr 1
    have habs : (q.num.natAbs : ℤ) = -q.num := by omega
    have habsq : ((q.num.natAbs : ℕ) : ℚ) = -(q.num : ℚ) := by
      have h2 : ((q.num.natAbs : ℤ) : ℚ) = ((-q.num : ℤ) : ℚ) :=
        congrArg (fun z : ℤ => (z : ℚ)) habs
      rwa [Int.cast_natCast, Int.cast_neg] at h2
    rw [e4, habsq]
    rw [neg_div, neg_neg]
    exact q.num_div_den
  · have hrq : renderQ q =
        natToDecimal (q.num.natAbs * (10 ^ q.den / q.den) / 10 ^ q.den) ++
          '.' :: padZeros q.den
            (natToDecimal (q.num.natAbs * (10 ^ q.den / q.den) % 10 ^ q.den)) := by
      unfold renderQ
      rw [if_neg hneg]
      rfl
    rw [hrq, parseFloat_digits_head _ _ (natToDecimal_ne_nil _) (natToDecimal_digits _), hbody]
    congr 1
    have habs : (q.num.natAbs : ℤ) = q.num := Int.natAbs_of_nonneg (le_of_not_lt hneg)
    have habsq : ((q.num.natAbs : ℕ) : ℚ) = (q.num : ℚ) := by
      have h2 : ((q.num.natAbs : ℤ) : ℚ) = ((q.num : ℤ) : ℚ) := congrArg (fun z : ℤ => (z : ℚ)) habs
      rwa [Int.cast_natCast] at h2
    rw [e4, habsq]
    exact q.num_div_den

theorem renderQ_no_pipe (q : ℚ) : '|' ∉ renderQ q := by
  intro hmem
  unfold renderQ at hmem
  rcases List.mem_append.mp hmem with h1 | h2
  · rcases List.mem_append.mp h1 with h3 | h4
    · by_cases hneg : q.num < 0
      · rw [if_pos hneg] at h3
        simp only [List.mem_singleton] at h3
        exact absurd h3 (by decide)
      · rw [if_neg hneg] at h3
        simp at h3
    · exact absurd (natToDecimal_digits _ _ h4).1 (by decide)
  · rcases List.mem_cons.mp h2 with h5 | h6
    · exact absurd h5 (by decide)
    · have := padZeros_digits _ _ (fun c hc => (natToDecimal_digits _ c hc).1) _ h6
      exact absurd this (by decide)

theorem renderQ_ne_nil (q : ℚ) : renderQ q ≠ [] := by
  unfold renderQ
  intro h
  rcases List.append_eq_nil.mp h with ⟨_, h2⟩
  exact List.cons_ne_nil _ _ h2

theorem parseHddTemp_encode (r : HddTemperature) (h : ValidRecord r) :
    parseHddTemp (encodeRecord r) = .ok r := by
  obtain ⟨d, i, t⟩ := r
  obtain ⟨hdne, hdnp, hine, hinp, htemp⟩ := h
  unfold encodeRecord
  by_cases hs : t = -1
  · rw [if_pos hs]
    have e : split1 (d ++ '|' :: (i ++ '|' :: '*' :: '|' :: ['*'])) =
        [d, i, ['*'], ['*']] := by
      rw [split1_append _ _ hdnp, split1_append _ _ hinp]
      rw [show split1 ('*' :: '|' :: ['*']) = [['*'], ['*']] from by decide]
    unfold parseHddTemp
    rw [e]
    rw [show t = -1 from hs]
    rfl
  · rw [if_neg hs]
    have hrep : DecimalRepresentable t := htemp.resolve_left hs
    have e : split1 (d ++ '|' :: (i ++ '|' :: (renderQ t ++ '|' :: ['C']))) =
        [d, i, renderQ t, ['C']] := by
      rw [split1_append _ _ hdnp, split1_append _ _ hinp,
        split1_append _ _ (renderQ_no_pipe t)]
      rw [show split1 ['C'] = [['C']] from by decide]
    unfold parseHddTemp
    rw [e]
    show (if (['C'] : List Char) = ['*'] then
        Except.ok (⟨d, i, -1⟩ : HddTemperature)
      else if (['C'] : List Char) ≠ ['C'] then Except.error ()
      else
        match parseFloat (renderQ t) with
        | some v => Except.ok (⟨d, i, v⟩ : HddTemperature)
        | none => Except.error ()) = Except.ok (⟨d, i, t⟩ : HddTemperature)
    rw [if_neg (by decide), if_neg (by decide)]
    rw [parseFloat_renderQ t hrep]

theorem encodeRecord_hdp (r : HddTemperature) (h : ValidRecord r) :
    hasDoublePipe (encodeRecord r) = false := by
  obtain ⟨d, i, t⟩ := r
  obtain ⟨hdne, hdnp, hine, hinp, _⟩ := h
  unfold encodeRecord
  by_cases hs : t = -1
  · rw [if_pos hs]
    apply hdp_append _ _ hdnp
    apply hdp_pipe_glue _ _ hine hinp
    decide
  · rw [if_neg hs]
    apply hdp_append _ _ hdnp
    apply hdp_pipe_glue _ _ hine hinp
    apply hdp_pipe_glue _ _ (renderQ_ne_nil t) (renderQ_no_pipe t)
    decide

theorem getLast?_append_right (l₁ l₂ : List Char) (h : l₂ ≠ []) :
    (l₁ ++ l₂).getLast? = l₂.getLast? :=
  List.getLast?_append_of_ne_nil l₁ h

theorem encodeRecord_getLast (r : HddTemperature) :
    (encodeRecord r).getLast? ≠ some '|' := by
  obtain ⟨d, i, t⟩ := r
  unfold encodeRecord
  by_cases hs : t = -1
  · rw [if_pos hs]
    rw [getLast?_append_right _ _ (List.cons_ne_nil _ _)]
    rw [show ('|' :: (i ++ '|' :: '*' :: '|' :: ['*'])) =
      ['|'] ++ (i ++ '|' :: '*' :: '|' :: ['*']) from rfl]
    rw [getLast?_append_right _ _ (by simp)]
    rw [getLast?_append_right _ _ (List.cons_ne_nil _ _)]
    decide
  · rw [if_neg hs]
    rw [getLast?_append_right _ _ (List.cons_ne_nil _ _)]
    rw [show ('|' :: (i ++ '|' :: (renderQ t ++ '|' :: ['C']))) =
      ['|'] ++ (i ++ '|' :: (renderQ t ++ '|' :: ['C'])) from rfl]
    rw [getLast?_append_right _ _ (by simp)]
    rw [getLast?_append_right _ _ (List.cons_ne_nil _ _)]
    rw [show ('|' :: (renderQ t ++ '|' :: ['C'])) =
      ['|'] ++ (renderQ t ++ '|' :: ['C']) from rfl]
    rw [getLast?_append_right _ _ (by simp)]
    rw [getLast?_append_right _ _ (List.cons_ne_nil _ _)]
    decide

theorem parseHddTempsList_encode (rs : List HddTemperature)
    (h : ∀ r ∈ rs, ValidRecord r) :
    parseHddTempsList (rs.map encodeRecord) = .ok rs := by
  induction rs with
  | nil => rfl
  | cons r rs' ih =>
    have hr := h r (List.mem_cons_self _ _)
    have hrs' : ∀ x ∈ rs', ValidRecord x := fun x hx => h x (List.mem_cons_of_mem _ hx)
    show parseHddTempsList (encodeRecord r :: rs'.map encodeRecord) = .ok (r :: rs')
    simp only [parseHddTempsList, parseHddTemp_encode r hr, ih hrs']

theorem parseHddTemps_wrap (mid : List Char) :
    parseHddTemps ('|' :: (mid ++ ['|'])) = exceptToOutcome (parseHddTempsList (split2 mid)) := by
  have hlen : ('|' :: (mid ++ ['|'])).length = mid.length + 2 := by simp
  have htake : ('|' :: (mid ++ ['|'])).take (mid.length + 1) = '|' :: mid := by
    rw [List.take_succ_cons]
    congr 1
    exact List.take_left mid ['|']
  unfold parseHddTemps goSlice
  rw [hlen]
  rw [if_neg (by simp)]
  rw [if_pos (by constructor <;> omega)]
  have h21 : mid.length + 2 - 1 = mid.length + 1 := rfl
  rw [h21, htake]
  rfl

/-- C9: encoding any nonempty sequence of valid records per the grammar
`response := '|' record ('||' record)* '|'` (the grammar admits at least
one record) and parsing the result with `parseHddTemps` yields back
exactly the same records in the same order. -/
theorem hddtemp_roundtrip_core (rs : List HddTemperature) (hne : rs ≠ [])
    (h : ∀ r ∈ rs, ValidRecord r) :
    parseHddTemps (encodeResponse rs) = .ok rs := by
  unfold encodeResponse
  rw [parseHddTemps_wrap]
  rw [split2_joinPipes (rs.map encodeRecord) (by simpa using hne) (by
    intro p hp
    obtain ⟨r, hr, rfl⟩ := List.mem_map.mp hp
    exact ⟨encodeRecord_hdp r (h r hr), encodeRecord_getLast r⟩)]
  rw [parseHddTempsList_encode rs h]
  rfl

theorem record_hdp (d i tail : List Char) (hdnp : '|' ∉ d) (hine : i ≠ []) (hinp : '|' ∉ i)
    (htail : hasDoublePipe ('|' :: tail) = false) :
    hasDoublePipe (d ++ '|' :: (i ++ '|' :: tail)) = false :=
  hdp_append _ _ hdnp (hdp_pipe_glue _ _ hine hinp htail)

theorem record_getLast (d i tail : List Char) (htail : tail ≠ []) :
    (d ++ '|' :: (i ++ '|' :: tail)).getLast? = tail.getLast? := by
  rw [getLast?_append_right _ _ (List.cons_ne_nil _ _)]
  rw [show ('|' :: (i ++ '|' :: tail)) = ['|'] ++ (i ++ '|' :: tail) from rfl]
  rw [getLast?_append_right _ _ (by simp)]
  rw [getLast?_append_right _ _ (List.cons_ne_nil _ _)]
  rw [show ('|' :: tail) = ['|'] ++ tail from rfl]
  rw [getLast?_append_right _ _ htail]

theorem parseHddTemp_err_of_count (s : List Char) (h : (split1 s).length ≠ 4) :
    parseHddTemp s = .error () := by
  unfold parseHddTemp
  rcases hsp : split1 s with _ | ⟨a, _ | ⟨b, _ | ⟨c, _ | ⟨d4, _ | ⟨f, rest⟩⟩⟩⟩⟩
  · rfl
  · rfl
  · rfl
  · rfl
  · rw [hsp] at h
    simp at h
  · rfl

theorem parseHddTempsList_err (items : List (List Char)) (item : List Char)
    (hmem : item ∈ items) (herr : parseHddTemp item = .error ()) :
    parseHddTempsList items = .error () := by
  induction items with
  | nil => cases hmem
  | cons x xs ih =>
    rcases List.mem_cons.mp hmem with rfl | hmem'
    · show parseHddTempsList (item :: xs) = .error ()
      simp only [parseHddTempsList, herr]
    · show parseHddTempsList (x :: xs) = .error ()
      simp only [parseHddTempsList]
      cases hx : parseHddTemp x with
      | error e => rfl
      | ok t =>
        rw [ih hmem']

theorem pwrstatLoop_skip (model : String) (pre post : List (String × String)) (k v : String)
    (hstep : pwrstatStep model k v = some []) :
    pwrstatLoop model (pre ++ (k, v) :: post) = pwrstatLoop model (pre ++ post) := by
  induction pre with
  | nil =>
    show pwrstatLoop model ((k, v) :: post) = pwrstatLoop model post
    simp only [pwrstatLoop, hstep]
    cases h : pwrstatLoop model post with
    | none => rfl
    | some ss => simp
  | cons p pre' ih =>
    obtain ⟨k', v'⟩ := p
    show pwrstatLoop model ((k', v') :: (pre' ++ (k, v) :: post)) =
      pwrstatLoop model ((k', v') :: (pre' ++ post))
    simp only [pwrstatLoop, ih]

/-- C4: the claim says the TCP connection opened by `readTempsFromConn` is
closed on every exit path. The code closes only after a successful drain
read: when `io.Copy` fails, the early return leaves the dialled connection
open, so the claim fails on the read-failure path (the success path does
close). -/
theorem readTempsFromConn_leaks_on_read_failure (data : List Char) :
    (readTempsFromConn true false data).1.opened = true ∧
      (readTempsFromConn true false data).1.closed = false ∧
      (readTempsFromConn true true data).1.closed = true :=
  ⟨rfl, rfl, rfl⟩

/-- C5: the one-character response `"|"` passes the validation (non-empty
and beginning with a pipe) and then the unchecked slice `s[1:len(s)-1]`
panics, so `parseHddTemps` is not total on validated inputs. -/
theorem parseHddTemps_pipe_panics :
    1 ≤ (['|'] : List Char).length ∧ (['|'] : List Char).head? = some '|' ∧
      parseHddTemps ['|'] = .panicked := by
  decide

/-- C6: a failed top-level UPS status query is escalated to a panic that
terminates the process, unlike the hddtemp adapter whose fetch failure is
degraded to zero samples. -/
theorem pwrstat_query_failure_panics :
    pwrstatCollect (.error ()) = .panicked ∧ hddCollect (.error ()) = .ok [] :=
  ⟨rfl, rfl⟩

/-- C7 counterexample: a handled numeric field whose value is the empty
string has no first token, and `value_arr[0]` panics, so the claim that the
adapter never fails the cycle or panics on an unparseable-token field is
false. -/
theorem pwrstat_empty_value_panics :
    pwrstatCollect (.ok [(loadKey, emptyStr)]) = .panicked := by
  decide

/-- C7 amended: for the five float-valued fields, a value whose first token
exists but does not parse as a float makes the adapter skip exactly that
field's metric, and the rest of the cycle's fields are still processed; a
value with no first token instead panics (see the counterexample). -/
theorem pwrstat_unparseable_token_skips (model k v : String) (tok : List Char)
    (rest : List (List Char)) (pre post : List (String × String))
    (hk : k = loadKey ∨ k = batteryKey ∨ k = rtimeKey ∨ k = utilityKey ∨ k = outputKey)
    (htok : goFields v.toList = tok :: rest) (hbad : parseFloat tok = none) :
    pwrstatStep model k v = some [] ∧
      pwrstatLoop model (pre ++ (k, v) :: post) = pwrstatLoop model (pre ++ post) := by
  have htok' : goFields v.data = tok :: rest := htok
  have hstep : pwrstatStep model k v = some [] := by
    rcases hk with rfl | rfl | rfl | rfl | rfl <;>
      simp [pwrstatStep, numericField, htok', hbad, loadKey, stateKey, batteryKey,
        rtimeKey, utilityKey, outputKey, testKey]
  exact ⟨hstep, pwrstatLoop_skip model pre post k v hstep⟩

/-- C7 amended, witnessed at the Load field with value `"abc"` inside a
two-field status mapping. -/
theorem pwrstat_unparseable_token_skips_witness :
    pwrstatStep mWitness loadKey vAbc = some [] ∧
      pwrstatLoop mWitness ([] ++ (loadKey, vAbc) :: [(stateKey, normalVal)]) =
        pwrstatLoop mWitness ([] ++ [(stateKey, normalVal)]) :=
  pwrstat_unparseable_token_skips mWitness loadKey vAbc ['a', 'b', 'c'] [] []
    [(stateKey, normalVal)] (Or.inl rfl) (by decide) (by decide)

/-- C8 counterexample: a status mapping carrying `Utility Voltage` with a
parseable token makes the collect path emit a sample for the input-voltage
descriptor, so the claim that no code path emits it is false. -/
theorem pwrstat_emits_inVoltage_concrete :
    pwrstatCollect (.ok [(utilityKey, v120)]) =
      .ok [⟨InVoltageDesc, 120, [emptyStr]⟩] := by
  decide

/-- C8 amended: the input-voltage descriptor is emitted by the collect
loop whenever `Utility Voltage` has a parseable first token, but it is the
adapter's `Describe` list that omits it. -/
theorem inVoltage_emitted_not_described (model v : String) (tok : List Char)
    (rest : List (List Char)) (x : ℚ) (htok : goFields v.toList = tok :: rest)
    (hx : parseFloat tok = some x) :
    InVoltageDesc ∉ pwrstatDescribe ∧
      pwrstatStep model utilityKey v = some [⟨InVoltageDesc, x, [model]⟩] := by
  have htok' : goFields v.data = tok :: rest := htok
  refine ⟨by decide, ?_⟩
  simp [pwrstatStep, numericField, htok', hx, loadKey, stateKey, batteryKey, rtimeKey,
    utilityKey, outputKey, testKey]

/-- C8 amended, witnessed at the value `"120"`. -/
theorem inVoltage_emitted_witness :
    InVoltageDesc ∉ pwrstatDescribe ∧
      pwrstatStep emptyStr utilityKey v120 = some [⟨InVoltageDesc, 120, [emptyStr]⟩] :=
  inVoltage_emitted_not_described emptyStr v120 ['1', '2', '0'] [] 120 (by decide) (by decide)

/-- C9 witness: the round trip evaluated on a concrete two-record sequence
(one Celsius reading, one sentinel). -/
theorem hddtemp_roundtrip_witness :
    parseHddTemps (encodeResponse rsWitness) = .ok rsWitness :=
  hddtemp_roundtrip_core rsWitness (by decide) (by decide)

/-- C1: every well-formed response of the shape `"|d1|i1|12.5|C||d2|i2|*|*|"`
(well-formed: the four opaque fields are nonempty and pipe-free) parses to
exactly two records, `{d1, i1, 12.5}` then `{d2, i2, -1}`, in that order. -/
theorem hddtemp_two_record_shape (d1 i1 d2 i2 : List Char)
    (_hd1 : d1 ≠ []) (hd1p : '|' ∉ d1) (hi1 : i1 ≠ []) (hi1p : '|' ∉ i1)
    (_hd2 : d2 ≠ []) (hd2p : '|' ∉ d2) (hi2 : i2 ≠ []) (hi2p : '|' ∉ i2) :
    parseHddTemps ('|' ::
      (((d1 ++ '|' :: (i1 ++ '|' :: '1' :: '2' :: '.' :: '5' :: '|' :: ['C'])) ++
        '|' :: '|' :: (d2 ++ '|' :: (i2 ++ '|' :: '*' :: '|' :: ['*']))) ++ ['|'])) =
      .ok [⟨d1, i1, 12.5⟩, ⟨d2, i2, -1⟩] := by
  rw [parseHddTemps_wrap]
  rw [split2_append _ _ (record_hdp d1 i1 _ hd1p hi1 hi1p (by decide)) (by
    rw [record_getLast d1 i1 _ (by decide)]
    decide)]
  rw [split2_no_sep _ (record_hdp d2 i2 _ hd2p hi2 hi2p (by decide))]
  have hp1 : parseHddTemp (d1 ++ '|' :: (i1 ++ '|' :: '1' :: '2' :: '.' :: '5' :: '|' :: ['C'])) =
      .ok ⟨d1, i1, 12.5⟩ := by
    unfold parseHddTemp
    rw [split1_append _ _ hd1p, split1_append _ _ hi1p]
    rw [show split1 ('1' :: '2' :: '.' :: '5' :: '|' :: ['C']) =
      [['1', '2', '.', '5'], ['C']] from by decide]
    show (if (['C'] : List Char) = ['*'] then Except.ok (⟨d1, i1, -1⟩ : HddTemperature)
      else if (['C'] : List Char) ≠ ['C'] then Except.error ()
      else match parseFloat ['1', '2', '.', '5'] with
        | some w => Except.ok (⟨d1, i1, w⟩ : HddTemperature)
        | none => Except.error ()) = Except.ok (⟨d1, i1, 12.5⟩ : HddTemperature)
    rw [if_neg (by decide), if_neg (by decide)]
    have hpf : parseFloat ['1', '2', '.', '5'] = some (12.5 : ℚ) := by
      simp +decide [parseFloat, parseUnsigned, digitsToNat, digitVal, isDigitChar]
      norm_num
    rw [hpf]
  have hp2 : parseHddTemp (d2 ++ '|' :: (i2 ++ '|' :: '*' :: '|' :: ['*'])) =
      .ok ⟨d2, i2, -1⟩ := by
    unfold parseHddTemp
    rw [split1_append _ _ hd2p, split1_append _ _ hi2p]
    rw [show split1 ('*' :: '|' :: ['*']) = [['*'], ['*']] from by decide]
    rfl
  simp only [parseHddTempsList, hp1, hp2, exceptToOutcome]

/-- C1 witness: the shape theorem applied to concrete fields
`d1 = "sda"`, `i1 = "1"`, `d2 = "sdb"`, `i2 = "2"`. -/
theorem hddtemp_two_record_shape_witness :
    parseHddTemps ('|' ::
      (((['s', 'd', 'a'] ++ '|' :: (['1'] ++ '|' :: '1' :: '2' :: '.' :: '5' :: '|' :: ['C'])) ++
        '|' :: '|' :: (['s', 'd', 'b'] ++ '|' :: (['2'] ++ '|' :: '*' :: '|' :: ['*']))) ++ ['|'])) =
      .ok [⟨['s', 'd', 'a'], ['1'], 12.5⟩, ⟨['s', 'd', 'b'], ['2'], -1⟩] :=
  hddtemp_two_record_shape ['s', 'd', 'a'] ['1'] ['s', 'd', 'b'] ['2']
    (by decide) (by decide) (by decide) (by decide)
    (by decide) (by decide) (by decide) (by decide)

/-- C2: whenever the middle of a validated response splits into records one
of which does not have exactly 4 pipe-separated fields, `parseHddTemps`
returns an error and no record list at all, even if the other records are
well-formed. -/
theorem hddtemp_bad_field_count_discards (s : List Char) (h2 : 2 ≤ s.length)
    (hbad : ∃ item ∈ split2 ((s.take (s.length - 1)).drop 1), (split1 item).length ≠ 4) :
    parseHddTemps s = .failed := by
  obtain ⟨item, hmem, hcount⟩ := hbad
  have herr := parseHddTempsList_err _ item hmem (parseHddTemp_err_of_count item hcount)
  by_cases hhead : s.head? = some '|'
  · unfold parseHddTemps goSlice
    rw [if_neg (by push_neg; exact ⟨by omega, hhead⟩)]
    rw [if_pos (by constructor <;> omega)]
    show exceptToOutcome (parseHddTempsList (split2 ((s.take (s.length - 1)).drop 1))) = .failed
    rw [herr]
    rfl
  · unfold parseHddTemps
    rw [if_pos (Or.inr hhead)]

/-- C2 witness: the response `"|a|b|c|"` contains a single 3-field record
and the parse fails as a whole. -/
theorem hddtemp_bad_field_count_discards_witness :
    parseHddTemps ['|', 'a', '|', 'b', '|', 'c', '|'] = .failed :=
  hddtemp_bad_field_count_discards ['|', 'a', '|', 'b', '|', 'c', '|'] (by decide)
    ⟨['a', '|', 'b', '|', 'c'], by decide, by decide⟩

/-- C3: every 4-field record whose unit field is `"*"` parses successfully
to the sentinel temperature `-1`, whatever the content of the temperature
field, which is never inspected. -/
theorem hddtemp_star_unit_sentinel (s d i t : List Char)
    (h : split1 s = [d, i, t, ['*']]) :
    parseHddTemp s = .ok ⟨d, i, -1⟩ := by
  unfold parseHddTemp
  rw [h]
  rfl

/-- C3 witness: the record `"a|b|xx|*"` with non-numeric garbage in the
temperature field parses to the sentinel. -/
theorem hddtemp_star_unit_sentinel_witness :
    parseHddTemp ['a', '|', 'b', '|', 'x', 'x', '|', '*'] = .ok ⟨['a'], ['b'], -1⟩ :=
  hddtemp_star_unit_sentinel ['a', '|', 'b', '|', 'x', 'x', '|', '*'] ['a'] ['b'] ['x', 'x']
    (by decide)

theorem parseHddTemps_dropLast (s : List Char) (c : Char) (h : 2 ≤ s.length) :
    parseHddTemps (s.dropLast ++ [c]) = parseHddTemps s := by
  have hne : s ≠ [] := by
    intro hs
    rw [hs] at h
    simp at h
  have hlen : (s.dropLast ++ [c]).length = s.length := by
    simp only [List.length_append, List.length_dropLast, List.length_singleton]
    omega
  have hhead : (s.dropLast ++ [c]).head? = s.head? := by
    cases s with
    | nil => simp at h
    | cons a tail =>
      cases tail with
      | nil => simp at h
      | cons b tail' => simp
  have h1 : s.dropLast.length = s.length - 1 := by
    simp [List.length_dropLast]
  have hmid : (s.dropLast ++ [c]).take (s.length - 1) = s.take (s.length - 1) := by
    calc (s.dropLast ++ [c]).take (s.length - 1)
        = (s.dropLast ++ [c]).take s.dropLast.length := by rw [h1]
      _ = s.dropLast := List.take_left _ _
      _ = s.take (s.length - 1) := List.dropLast_eq_take s
  unfold parseHddTemps goSlice
  rw [hlen, hhead, hmid]

/-- C10: `parseHddTemps` never checks that the response ends with a pipe:
the result is unchanged when the last character of any validated input is
replaced by any character, and in particular the response `"|a|b|*|*x"`,
which does not end with a pipe, parses successfully. -/
theorem hddtemp_ignores_trailing_char :
    (∀ (s : List Char) (c : Char), 2 ≤ s.length →
      parseHddTemps (s.dropLast ++ [c]) = parseHddTemps s) ∧
      parseHddTemps ('|' :: 'a' :: '|' :: 'b' :: '|' :: '*' :: '|' :: '*' :: ['x']) =
        .ok [⟨['a'], ['b'], -1⟩] ∧ ('x' : Char) ≠ '|' :=
  ⟨parseHddTemps_dropLast, by decide, by decide⟩

/-- C10 witness: replacing the final pipe of `"|a|b|*|*|"` with `'x'`
leaves the parse result unchanged. -/
theorem hddtemp_ignores_trailing_char_witness :
    parseHddTemps (('|' :: 'a' :: '|' :: 'b' :: '|' :: '*' :: '|' :: '*' :: ['|']).dropLast
        ++ ['x']) =
      parseHddTemps ('|' :: 'a' :: '|' :: 'b' :: '|' :: '*' :: '|' :: '*' :: ['|']) :=
  hddtemp_ignores_trailing_char.1 ('|' :: 'a' :: '|' :: 'b' :: '|' :: '*' :: '|' :: '*' :: ['|'])
    'x' (by decide)
